import Mathlib

/-!
The consumer-group offset report of kazoo-offsets.

A shallow embedding of `kazoo-offsets.go`.

* Go `int64` values are integers; the only arithmetic the program performs on
  them is the subtraction in `ConsumerOffsets.Print`, which is reduced into the
  two-complement range by `wrapInt64`.
* A Go `map[int32]V` is an association list; the order of the list is the order
  in which a `range` loop visits the map.  Go leaves that order unspecified, so
  statements about maps are made for every ordering of the same entries.
* A map of pointers (`map[int32]*PartitionOffsets`) yields the nil pointer for a
  missing key; a field access through it is the runtime panic `Abort.nilDeref`.
* Calls into the ZooKeeper and Kafka client libraries are inputs: every call
  site is a field of `Env` holding what the call returns, a value or a Go
  `error`.
* `os.Exit` and runtime panics end the run; a run is an `Except Abort _`.
-/

namespace KazooOffsets

/-! ## Machine integers -/

/-- Reduction of an integer into the range of a Go `int64` (two-complement arithmetic). -/
def wrapInt64 (x : Int) : Int := (x + 2 ^ 63) % 2 ^ 64 - 2 ^ 63

/-- Go `a - b` on `int64` operands. -/
def subInt64 (a b : Int) : Int := wrapInt64 (a - b)

/-- The values a Go `int64` can hold. -/
def isInt64 (x : Int) : Prop := -(2 ^ 63) ≤ x ∧ x < 2 ^ 63

instance (x : Int) : Decidable (isInt64 x) := by unfold isInt64; infer_instance

/-! ## Go maps keyed by `int32` -/

/-- Association list standing for a Go map with `int32` keys. -/
abbrev GoMap (V : Type) := List (Int × V)

namespace GoMap

variable {V : Type}

/-- The keys in the order a `range` loop yields them. -/
def keys (m : GoMap V) : List Int := m.map Prod.fst

/-- Map index expression `m[p]`: the stored value, or nothing for a missing key. -/
def lookup (p : Int) : GoMap V → Option V
  | [] => none
  | (k, v) :: rest => if k = p then some v else lookup p rest

/-- Map assignment `m[p] = v`: replaces the value of an existing key, adds the key otherwise. -/
def store (p : Int) (v : V) : GoMap V → GoMap V
  | [] => [(p, v)]
  | (k, w) :: rest => if k = p then (k, v) :: rest else (k, w) :: store p v rest

/-- Write through the pointer held at `m[p]`: the pointee is changed by `f`;
there is no result when the key is missing (the pointer is nil). -/
def update (p : Int) (f : V → V) : GoMap V → Option (GoMap V)
  | [] => none
  | (k, w) :: rest =>
    if k = p then some ((k, f w) :: rest)
    else (update p f rest).map fun rest1 => (k, w) :: rest1

end GoMap

/-! ## Data model -/

/-- Go `type PartitionOffsets struct`. -/
structure PartitionOffsets where
  Owner : String
  Oldest : Int
  Newest : Int
  Current : Int
  deriving DecidableEq

/-- Go `type ConsumerOffsets struct`. -/
structure ConsumerOffsets where
  Group : String
  Topic : String
  Partitions : GoMap PartitionOffsets
  deriving DecidableEq

/-- One formatted line of the report: the seven arguments of the row `Fprintf`,
in the order of its verbs. -/
structure Row where
  group : String
  topic : String
  partition : Int
  offset : Int
  logSize : Int
  lag : Int
  owner : String
  deriving DecidableEq

/-- What `Print` writes to standard output: the header cells and the rows below them. -/
structure Table where
  header : List String
  rows : List Row
  deriving DecidableEq

/-- How a run ends early. -/
inductive Abort where
  /-- Call of `os.Exit(code)` after the message built from `format` went to standard error. -/
  | exit (code : Nat) (format : String)
  /-- Go runtime panic: nil pointer dereference. -/
  | nilDeref
  deriving DecidableEq

/-! ## `ConsumerOffsets.Print` -/

/-- The method `Sort` of `sortutil.Int32Slice`: ascending order. -/
def Int32Slice.Sort (ps : List Int) : List Int := ps.insertionSort (· ≤ ·)

/-- The cells of the header line, tab separated in the source. -/
def headerCells : List String :=
  ["Group ID", "Topic", "Partition", "Offset", "Log Size", "Lag", "Owner"]

/-- Body of the row loop for one partition whose entry is `e`. -/
def formatRow (co : ConsumerOffsets) (p : Int) (e : PartitionOffsets) : Row :=
  let s := subInt64 e.Newest e.Oldest
  let l := subInt64 e.Newest e.Current
  { group := co.Group, topic := co.Topic, partition := p, offset := e.Current,
    logSize := s, lag := l, owner := e.Owner }

/-- The loop `for _, p := range ps` of `Print`. -/
def printRows (co : ConsumerOffsets) : List Int → Except Abort (List Row)
  | [] => .ok []
  | p :: ps =>
    match GoMap.lookup p co.Partitions with
    | none => .error .nilDeref
    | some e =>
      match printRows co ps with
      | .error a => .error a
      | .ok rows => .ok (formatRow co p e :: rows)

/-- Go `func (co ConsumerOffsets) Print()`. -/
def ConsumerOffsets.Print (co : ConsumerOffsets) : Except Abort Table :=
  let ps := Int32Slice.Sort (GoMap.keys co.Partitions)
  match printRows co ps with
  | .error a => .error a
  | .ok rows => .ok { header := headerCells, rows := rows }

/-! ## Process exits -/

/-- Go `func printUsageErrorAndExit`: message and flag defaults to standard error, then `os.Exit(64)`. -/
def printUsageErrorAndExit {α : Type} (format : String) : Except Abort α :=
  .error (.exit 64 format)

/-- Go `func printErrorAndExit`: message to standard error, then `os.Exit(code)`. -/
def printErrorAndExit {α : Type} (code : Nat) (format : String) : Except Abort α :=
  .error (.exit code format)

/-- Go `func checkFlags`, on the values of the three string flags. -/
def checkFlags (zookeeper group topic : String) : Except Abort Unit :=
  let err := ""
  let err := if zookeeper = "" then err ++ "A zookeeper host string is required\n" else err
  let err := if group = "" then err ++ "A consumer group id is required.\n" else err
  let err := if topic = "" then err ++ "A topic name is required.\n" else err
  if err ≠ "" then printUsageErrorAndExit err else .ok ()

/-! ## The collaborators and `main` -/

/-- The constant `sarama.OffsetNewest`. -/
def OffsetNewest : Int := -1

/-- The constant `sarama.OffsetOldest`. -/
def OffsetOldest : Int := -2

/-- Everything a run reads from outside: the flag values after `flag.Parse` and,
for each call into the ZooKeeper and Kafka clients, what that call returns.
A Go `error` is the `error` side of `Except`; the owner returned by
`PartitionOwner` is a pointer and may be nil (`none`), otherwise it carries its `ID`.
The results of `groups.Find` and `zk.BrokerList` only feed later calls into the
clients, so they are not kept. -/
structure Env where
  zookeeper : String
  group : String
  topic : String
  NewKazooFromConnectionString : Except String Unit
  Consumergroups : Except String Unit
  FetchAllOffsets : Except String (String → GoMap Int)
  PartitionOwner : String → Int → Except String (Option String)
  BrokerList : Except String Unit
  NewClient : Except String Unit
  Partitions : String → Except String (List Int)
  GetOffset : String → Int → Int → Except String Int

/-- The statement `co.Partitions[p] = &PartitionOffsets{Owner: owner.ID, Current: o}`;
the fields not named keep the zero value. -/
def mergeCommitted (m : GoMap PartitionOffsets) (p o : Int) (owner : String) :
    GoMap PartitionOffsets :=
  GoMap.store p { Owner := owner, Oldest := 0, Newest := 0, Current := o } m

/-- The loop `for p, o := range offsets[*topic]` of `main`, over the entries in
the order the loop visits them. -/
def committedPass (env : Env) :
    List (Int × Int) → GoMap PartitionOffsets → Except Abort (GoMap PartitionOffsets)
  | [], m => .ok m
  | (p, o) :: rest, m =>
    match env.PartitionOwner env.topic p with
    | .error _ =>
      printErrorAndExit 69
        "Failed to get partition owner for Consumer Group %s topic %s partition %d: err"
    | .ok none => .error .nilDeref
    | .ok (some id) => committedPass env rest (mergeCommitted m p o id)

/-- The statement `co.Partitions[p].Oldest = oldest`. -/
def setOldest (m : GoMap PartitionOffsets) (p oldest : Int) :
    Except Abort (GoMap PartitionOffsets) :=
  match GoMap.update p (fun e => { e with Oldest := oldest }) m with
  | none => .error .nilDeref
  | some m1 => .ok m1

/-- The statement `co.Partitions[p].Newest = newest`. -/
def setNewest (m : GoMap PartitionOffsets) (p newest : Int) :
    Except Abort (GoMap PartitionOffsets) :=
  match GoMap.update p (fun e => { e with Newest := newest }) m with
  | none => .error .nilDeref
  | some m1 => .ok m1

/-- The loop `for _, p := range ps` of `main`. -/
def watermarkPass (env : Env) :
    List Int → GoMap PartitionOffsets → Except Abort (GoMap PartitionOffsets)
  | [], m => .ok m
  | p :: rest, m =>
    match env.GetOffset env.topic p OffsetOldest with
    | .error _ =>
      printErrorAndExit 69
        "Failed to get oldest offset for topic %s, partition %d, from kafka: %v"
    | .ok oldest =>
      match setOldest m p oldest with
      | .error a => .error a
      | .ok m1 =>
        match env.GetOffset env.topic p OffsetNewest with
        | .error _ =>
          printErrorAndExit 69
            "Failed to get newest offset for topic %s, partition %d, from kafka: %v"
        | .ok newest =>
          match setNewest m1 p newest with
          | .error a => .error a
          | .ok m2 => watermarkPass env rest m2

/-- The check `if err != nil` followed by `printErrorAndExit(code, format, ...)`. -/
def orExit {α : Type} (r : Except String α) (code : Nat) (format : String) : Except Abort α :=
  match r with
  | .ok a => .ok a
  | .error _ => printErrorAndExit code format

/-- Go `func main`: the table printed, or how the run ended before printing. -/
def main (env : Env) : Except Abort Table := do
  checkFlags env.zookeeper env.group env.topic
  orExit env.NewKazooFromConnectionString 69 "Failed to connect to Zookeeper: %v"
  orExit env.Consumergroups 69 "Failed to get Kafka Consumer Groups from Zookeeper: %v"
  let offsets ← orExit env.FetchAllOffsets 69
    "Failed to get offsets for Kafka Consumer Group %s: %v"
  let co : ConsumerOffsets := { Group := env.group, Topic := env.topic, Partitions := [] }
  let m1 ← committedPass env (offsets env.topic) co.Partitions
  orExit env.BrokerList 69 "Failed to get kafka broker list from zookeeper: %v"
  orExit env.NewClient 69 "Failed to connect to kafka: %v"
  let ps ← orExit (env.Partitions env.topic) 69
    "Failed to get partitions for topic %s from kafka: %v"
  let m2 ← watermarkPass env ps m1
  ConsumerOffsets.Print { co with Partitions := m2 }

/-! ## Scenario inputs -/

/-- An answer of `FetchAllOffsets` that holds committed offsets for the topic t1 only. -/
def offsetsOf (offsets : GoMap Int) : String → GoMap Int :=
  fun t => if t = "t1" then offsets else []

/-- An input on which every call into the client libraries succeeds. -/
def envOf (offsets : GoMap Int) (owners : Int → Option String) (ps : List Int)
    (oldest newest : Int → Int) : Env :=
  { zookeeper := "zk:2181", group := "g1", topic := "t1",
    NewKazooFromConnectionString := .ok (),
    Consumergroups := .ok (),
    FetchAllOffsets := .ok (offsetsOf offsets),
    PartitionOwner := fun _ p => .ok (owners p),
    BrokerList := .ok (),
    NewClient := .ok (),
    Partitions := fun _ => .ok ps,
    GetOffset := fun _ p time => .ok (if time = OffsetOldest then oldest p else newest p) }

/-- Scenario A of the specification, with the committed-offset map visited in the
order `offsets` and the broker answering with the partition list `ps`. -/
def scenarioAWith (offsets : GoMap Int) (ps : List Int) : Env :=
  envOf offsets (fun p => if p = 0 then some "c1" else some "c2") ps
    (fun p => if p = 0 then 50 else 150) (fun p => if p = 0 then 150 else 250)

/-- Scenario A of the specification. -/
def scenarioA : Env := scenarioAWith [(0, 100), (1, 200)] [0, 1]

/-- Scenario B of the specification: the broker knows partition 0, the group has
committed nothing. -/
def scenarioB : Env :=
  envOf [] (fun _ => some "c1") [0] (fun _ => 50) (fun _ => 150)

/-- Scenario C of the specification: the broker reports oldest 10 and newest 3 for
partition 0. -/
def scenarioC : Env :=
  envOf [(0, 5)] (fun _ => some "c1") [0] (fun _ => 10) (fun _ => 3)

/-- Scenario D of the specification: no partition on either side. -/
def scenarioD : Env :=
  envOf [] (fun _ => none) [] (fun _ => 0) (fun _ => 0)

/-- Scenario A with a broker that lists partition 0 only. -/
def scenarioBrokerSubset : Env := scenarioAWith [(0, 100), (1, 200)] [0]

/-- A group whose committed offset for partition 0 is the least `int64`, on a
topic for which the broker lists no partition. -/
def scenarioMinOffset : Env :=
  envOf [(0, -(2 ^ 63))] (fun _ => some "c1") [] (fun _ => 0) (fun _ => 0)

/-- A snapshot whose committed offset 200 is ahead of the newest offset 150. -/
def staleSnapshot : ConsumerOffsets :=
  { Group := "g1", Topic := "t1",
    Partitions := [(0, { Owner := "c1", Oldest := 50, Newest := 150, Current := 200 })] }

/-- A snapshot of two partitions, visited in descending order. -/
def twoPartitions : ConsumerOffsets :=
  { Group := "g1", Topic := "t1",
    Partitions := [(1, { Owner := "c2", Oldest := 150, Newest := 250, Current := 200 }),
      (0, { Owner := "c1", Oldest := 50, Newest := 150, Current := 100 })] }

/-! ## Facts about Go maps -/

namespace GoMap

variable {V : Type}

theorem mem_keys_store (p q : Int) (v : V) (m : GoMap V) :
    q ∈ keys (store p v m) ↔ q = p ∨ q ∈ keys m := by
  induction m with
  | nil => simp [store, keys]
  | cons kv rest ih =>
    obtain ⟨k, w⟩ := kv
    by_cases hk : k = p
    · subst hk
      simp [store, keys]
    · have ih1 : q ∈ List.map Prod.fst (store p v rest) ↔ q = p ∨ q ∈ List.map Prod.fst rest := ih
      simp only [store, if_neg hk, keys, List.map_cons, List.mem_cons, ih1]
      tauto

theorem nodup_keys_store (p : Int) (v : V) (m : GoMap V) (h : (keys m).Nodup) :
    (keys (store p v m)).Nodup := by
  induction m with
  | nil => simp [store, keys]
  | cons kv rest ih =>
    obtain ⟨k, w⟩ := kv
    have hk : k ∉ keys rest ∧ (keys rest).Nodup := by simpa [keys] using h
    by_cases hkp : k = p
    · simpa [store, hkp, keys] using h
    · have h1 : k ∉ keys (store p v rest) := by
        rw [mem_keys_store]
        rintro (h2 | h2)
        · exact hkp h2
        · exact hk.1 h2
      have h2 : (keys (store p v rest)).Nodup := ih hk.2
      simp only [store, if_neg hkp]
      exact List.nodup_cons.mpr ⟨h1, h2⟩

theorem lookup_store_self (p : Int) (v : V) (m : GoMap V) :
    lookup p (store p v m) = some v := by
  induction m with
  | nil => simp [store, lookup]
  | cons kv rest ih =>
    obtain ⟨k, w⟩ := kv
    by_cases hk : k = p
    · simp [store, lookup, hk]
    · simp [store, lookup, hk, ih]

theorem lookup_store_ne (p q : Int) (v : V) (m : GoMap V) (h : q ≠ p) :
    lookup q (store p v m) = lookup q m := by
  induction m with
  | nil => simp [store, lookup, Ne.symm h]
  | cons kv rest ih =>
    obtain ⟨k, w⟩ := kv
    by_cases hk : k = p
    · subst hk
      simp [store, lookup, Ne.symm h]
    · by_cases hq : k = q
      · subst hq
        simp [store, lookup, hk]
      · simp [store, lookup, hk, hq, ih]

theorem store_store_self (p : Int) (v : V) (m : GoMap V) :
    store p v (store p v m) = store p v m := by
  induction m with
  | nil => simp [store]
  | cons kv rest ih =>
    obtain ⟨k, w⟩ := kv
    by_cases hk : k = p
    · simp [store, hk]
    · simp [store, hk, ih]

theorem lookup_eq_none_iff (p : Int) (m : GoMap V) :
    lookup p m = none ↔ p ∉ keys m := by
  induction m with
  | nil => simp [lookup, keys]
  | cons kv rest ih =>
    obtain ⟨k, w⟩ := kv
    have ih1 : lookup p rest = none ↔ p ∉ List.map Prod.fst rest := ih
    by_cases hk : k = p
    · simp [lookup, keys, hk]
    · simp [lookup, keys, hk, ih1, Ne.symm hk]

theorem lookup_isSome_iff (p : Int) (m : GoMap V) :
    (∃ v, lookup p m = some v) ↔ p ∈ keys m := by
  have h := lookup_eq_none_iff p m
  cases hl : lookup p m with
  | none => simp [hl] at h ⊢; exact h
  | some v => simp [hl] at h ⊢; exact h

theorem mem_of_lookup_eq_some (p : Int) (v : V) (m : GoMap V) (h : lookup p m = some v) :
    (p, v) ∈ m := by
  induction m with
  | nil => simp [lookup] at h
  | cons kv rest ih =>
    obtain ⟨k, w⟩ := kv
    by_cases hk : k = p
    · simp [lookup, hk] at h
      simp [hk, h]
    · simp [lookup, hk] at h
      exact List.mem_cons_of_mem _ (ih h)

theorem lookup_eq_some_of_mem (p : Int) (v : V) (m : GoMap V) (hm : (keys m).Nodup)
    (h : (p, v) ∈ m) : lookup p m = some v := by
  induction m with
  | nil => simp at h
  | cons kv rest ih =>
    obtain ⟨k, w⟩ := kv
    have hk : k ∉ keys rest ∧ (keys rest).Nodup := by simpa [keys] using hm
    rcases List.mem_cons.mp h with h1 | h1
    · cases h1
      simp [lookup]
    · have hp : p ∈ keys rest := List.mem_map.mpr ⟨(p, v), h1, rfl⟩
      have hne : k ≠ p := fun e => hk.1 (e ▸ hp)
      simp [lookup, hne, ih hk.2 h1]

theorem lookup_perm (p : Int) (m1 m2 : GoMap V) (hp : m1.Perm m2) (hm : (keys m1).Nodup) :
    lookup p m1 = lookup p m2 := by
  have hm2 : (keys m2).Nodup := (List.Perm.map Prod.fst hp).nodup_iff.mp hm
  cases h1 : lookup p m1 with
  | some v =>
    exact (lookup_eq_some_of_mem p v m2 hm2 (hp.mem_iff.mp (mem_of_lookup_eq_some p v m1 h1))).symm
  | none =>
    have hn : p ∉ keys m1 := (lookup_eq_none_iff p m1).mp h1
    have hn2 : p ∉ keys m2 := fun h => hn ((List.Perm.map Prod.fst hp).mem_iff.mpr h)
    exact ((lookup_eq_none_iff p m2).mpr hn2).symm

theorem update_eq_none_iff (p : Int) (f : V → V) (m : GoMap V) :
    update p f m = none ↔ p ∉ keys m := by
  induction m with
  | nil => simp [update, keys]
  | cons kv rest ih =>
    obtain ⟨k, w⟩ := kv
    have ih1 : update p f rest = none ↔ p ∉ List.map Prod.fst rest := ih
    by_cases hk : k = p
    · simp [update, keys, hk]
    · simp [update, keys, hk, ih1, Ne.symm hk]

theorem keys_update (p : Int) (f : V → V) (m m1 : GoMap V) (h : update p f m = some m1) :
    keys m1 = keys m := by
  induction m generalizing m1 with
  | nil => simp [update] at h
  | cons kv rest ih =>
    obtain ⟨k, w⟩ := kv
    by_cases hk : k = p
    · subst hk
      simp [update] at h
      subst h
      simp [keys]
    · cases hu : update p f rest with
      | none => simp [update, hk, hu] at h
      | some r1 =>
        simp [update, hk, hu] at h
        subst h
        have h1 := ih r1 hu
        simp only [keys] at h1
        simp [keys, h1]

theorem lookup_update_self (p : Int) (f : V → V) (m m1 : GoMap V)
    (h : update p f m = some m1) : lookup p m1 = (lookup p m).map f := by
  induction m generalizing m1 with
  | nil => simp [update] at h
  | cons kv rest ih =>
    obtain ⟨k, w⟩ := kv
    by_cases hk : k = p
    · subst hk
      simp [update] at h
      subst h
      simp [lookup]
    · cases hu : update p f rest with
      | none => simp [update, hk, hu] at h
      | some r1 =>
        simp [update, hk, hu] at h
        subst h
        simp [lookup, hk, ih r1 hu]

theorem lookup_update_ne (p q : Int) (f : V → V) (m m1 : GoMap V)
    (h : update p f m = some m1) (hq : q ≠ p) : lookup q m1 = lookup q m := by
  induction m generalizing m1 with
  | nil => simp [update] at h
  | cons kv rest ih =>
    obtain ⟨k, w⟩ := kv
    by_cases hk : k = p
    · subst hk
      simp [update] at h
      subst h
      simp [lookup, Ne.symm hq]
    · cases hu : update p f rest with
      | none => simp [update, hk, hu] at h
      | some r1 =>
        simp [update, hk, hu] at h
        subst h
        by_cases hkq : k = q
        · simp [lookup, hkq]
        · simp [lookup, hkq, ih r1 hu]

end GoMap

/-! ## Facts about `int64` arithmetic -/

theorem wrapInt64_of_isInt64 (x : Int) (h : isInt64 x) : wrapInt64 x = x := by
  unfold isInt64 at h
  unfold wrapInt64
  omega

theorem isInt64_wrapInt64 (x : Int) : isInt64 (wrapInt64 x) := by
  unfold isInt64 wrapInt64
  omega

theorem subInt64_of_nonneg (a b : Int) (ha : 0 ≤ a ∧ a < 2 ^ 63) (hb : 0 ≤ b ∧ b < 2 ^ 63) :
    subInt64 a b = a - b := by
  unfold subInt64 wrapInt64
  omega

/-! ## Facts about `Print` -/

theorem perm_Sort (ps : List Int) : (Int32Slice.Sort ps).Perm ps :=
  List.perm_insertionSort _ ps

theorem sorted_Sort (ps : List Int) : (Int32Slice.Sort ps).Sorted (· ≤ ·) :=
  List.sorted_insertionSort _ ps

theorem mem_Sort (p : Int) (ps : List Int) : p ∈ Int32Slice.Sort ps ↔ p ∈ ps :=
  (perm_Sort ps).mem_iff

theorem strict_Sort (ps : List Int) (h : ps.Nodup) : (Int32Slice.Sort ps).Sorted (· < ·) := by
  have hs := sorted_Sort ps
  have hn : (Int32Slice.Sort ps).Nodup := (perm_Sort ps).nodup_iff.mpr h
  exact (List.Sorted.lt_of_le hs hn)

theorem Sort_eq_of_perm (ps qs : List Int) (h : ps.Perm qs) :
    Int32Slice.Sort ps = Int32Slice.Sort qs :=
  List.eq_of_perm_of_sorted (((perm_Sort ps).trans h).trans (perm_Sort qs).symm)
    (sorted_Sort ps) (sorted_Sort qs)

theorem printRows_ok (co : ConsumerOffsets) (ps : List Int)
    (h : ∀ p ∈ ps, p ∈ GoMap.keys co.Partitions) : ∃ rows, printRows co ps = .ok rows := by
  induction ps with
  | nil => exact ⟨[], rfl⟩
  | cons p rest ih =>
    obtain ⟨rows, hrows⟩ := ih (fun q hq => h q (List.mem_cons_of_mem _ hq))
    obtain ⟨e, he⟩ := (GoMap.lookup_isSome_iff p co.Partitions).mpr (h p (List.mem_cons_self _ _))
    exact ⟨formatRow co p e :: rows, by simp [printRows, he, hrows]⟩

theorem printRows_spec (co : ConsumerOffsets) (ps : List Int) (rows : List Row)
    (h : printRows co ps = .ok rows) :
    rows.map (fun r => r.partition) = ps ∧
      ∀ r ∈ rows, ∃ e, GoMap.lookup r.partition co.Partitions = some e ∧
        r = formatRow co r.partition e := by
  induction ps generalizing rows with
  | nil =>
    simp [printRows] at h
    subst h
    simp
  | cons p rest ih =>
    cases he : GoMap.lookup p co.Partitions with
    | none => simp [printRows, he] at h
    | some e =>
      cases hr : printRows co rest with
      | error a => simp [printRows, he, hr] at h
      | ok rows1 =>
        simp [printRows, he, hr] at h
        subst h
        obtain ⟨h1, h2⟩ := ih rows1 hr
        refine ⟨by simp [h1, formatRow], ?_⟩
        intro r hr1
        rcases List.mem_cons.mp hr1 with h3 | h3
        · subst h3
          exact ⟨e, by simpa [formatRow] using he, rfl⟩
        · exact h2 r h3

theorem printRows_congr (g t : String) (m1 m2 : GoMap PartitionOffsets) (ps : List Int)
    (h : ∀ p, GoMap.lookup p m1 = GoMap.lookup p m2) :
    printRows { Group := g, Topic := t, Partitions := m1 } ps =
      printRows { Group := g, Topic := t, Partitions := m2 } ps := by
  induction ps with
  | nil => rfl
  | cons p rest ih => simp [printRows, h p, ih, formatRow]

theorem Print_ok (co : ConsumerOffsets) : ∃ t, co.Print = .ok t := by
  obtain ⟨rows, hrows⟩ := printRows_ok co (Int32Slice.Sort (GoMap.keys co.Partitions))
    (fun p hp => (mem_Sort p _).mp hp)
  exact ⟨{ header := headerCells, rows := rows }, by simp [ConsumerOffsets.Print, hrows]⟩

theorem Print_spec (co : ConsumerOffsets) (t : Table) (h : co.Print = .ok t) :
    t.header = headerCells ∧
      t.rows.map (fun r => r.partition) = Int32Slice.Sort (GoMap.keys co.Partitions) ∧
      ∀ r ∈ t.rows, ∃ e, GoMap.lookup r.partition co.Partitions = some e ∧
        r = formatRow co r.partition e := by
  cases hr : printRows co (Int32Slice.Sort (GoMap.keys co.Partitions)) with
  | error a => simp [ConsumerOffsets.Print, hr] at h
  | ok rows =>
    simp [ConsumerOffsets.Print, hr] at h
    subst h
    obtain ⟨h1, h2⟩ := printRows_spec co _ rows hr
    exact ⟨rfl, h1, h2⟩

theorem Print_perm (g t : String) (m1 m2 : GoMap PartitionOffsets) (hp : m1.Perm m2)
    (hm : (GoMap.keys m1).Nodup) :
    ConsumerOffsets.Print { Group := g, Topic := t, Partitions := m1 } =
      ConsumerOffsets.Print { Group := g, Topic := t, Partitions := m2 } := by
  have hk : Int32Slice.Sort (GoMap.keys m1) = Int32Slice.Sort (GoMap.keys m2) :=
    Sort_eq_of_perm _ _ (List.Perm.map Prod.fst hp)
  have hl : ∀ p, GoMap.lookup p m1 = GoMap.lookup p m2 :=
    fun p => GoMap.lookup_perm p m1 m2 hp hm
  simp only [ConsumerOffsets.Print, hk, printRows_congr g t m1 m2 _ hl]

/-! ## Facts about the two passes of `main` -/

theorem committedPass_keys (env : Env) (offs : List (Int × Int))
    (m m1 : GoMap PartitionOffsets) (h : committedPass env offs m = .ok m1) :
    (∀ q, q ∈ GoMap.keys m1 ↔ q ∈ GoMap.keys m ∨ q ∈ GoMap.keys offs) ∧
      ((GoMap.keys m).Nodup → (GoMap.keys m1).Nodup) := by
  induction offs generalizing m with
  | nil =>
    simp [committedPass] at h
    subst h
    simp [GoMap.keys]
  | cons po rest ih =>
    obtain ⟨p, o⟩ := po
    cases ho : env.PartitionOwner env.topic p with
    | error e => simp [committedPass, ho, printErrorAndExit] at h
    | ok w =>
      cases w with
      | none => simp [committedPass, ho] at h
      | some id =>
        simp only [committedPass, ho] at h
        obtain ⟨h1, h2⟩ := ih (mergeCommitted m p o id) h
        constructor
        · intro q
          rw [h1 q, mergeCommitted, GoMap.mem_keys_store]
          simp only [GoMap.keys, List.map_cons, List.mem_cons]
          tauto
        · intro hn
          exact h2 (GoMap.nodup_keys_store p _ m hn)

theorem committedPass_lookup_notin (env : Env) (offs : List (Int × Int))
    (m m1 : GoMap PartitionOffsets) (h : committedPass env offs m = .ok m1) (q : Int)
    (hq : q ∉ GoMap.keys offs) : GoMap.lookup q m1 = GoMap.lookup q m := by
  induction offs generalizing m with
  | nil =>
    simp [committedPass] at h
    subst h
    rfl
  | cons po rest ih =>
    obtain ⟨p, o⟩ := po
    have hq1 : q ≠ p ∧ q ∉ GoMap.keys rest := by simpa [GoMap.keys] using hq
    cases ho : env.PartitionOwner env.topic p with
    | error e => simp [committedPass, ho, printErrorAndExit] at h
    | ok w =>
      cases w with
      | none => simp [committedPass, ho] at h
      | some id =>
        simp only [committedPass, ho] at h
        rw [ih (mergeCommitted m p o id) h hq1.2, mergeCommitted,
          GoMap.lookup_store_ne p q _ m hq1.1]

theorem committedPass_lookup (env : Env) (offs : List (Int × Int))
    (m m1 : GoMap PartitionOffsets) (h : committedPass env offs m = .ok m1)
    (hn : (GoMap.keys offs).Nodup) (p o : Int) (hp : (p, o) ∈ offs) :
    ∃ id, env.PartitionOwner env.topic p = .ok (some id) ∧
      GoMap.lookup p m1 = some { Owner := id, Oldest := 0, Newest := 0, Current := o } := by
  induction offs generalizing m with
  | nil => simp at hp
  | cons qo rest ih =>
    obtain ⟨q, o1⟩ := qo
    have hn1 : q ∉ GoMap.keys rest ∧ (GoMap.keys rest).Nodup := by simpa [GoMap.keys] using hn
    cases ho : env.PartitionOwner env.topic q with
    | error e => simp [committedPass, ho, printErrorAndExit] at h
    | ok w =>
      cases w with
      | none => simp [committedPass, ho] at h
      | some id =>
        simp only [committedPass, ho] at h
        rcases List.mem_cons.mp hp with h1 | h1
        · cases h1
          refine ⟨id, ho, ?_⟩
          rw [committedPass_lookup_notin env rest _ m1 h p hn1.1, mergeCommitted,
            GoMap.lookup_store_self]
        · exact ih (mergeCommitted m q o1 id) h hn1.2 h1

theorem committedPass_ok (env : Env) (offs : List (Int × Int)) (m : GoMap PartitionOffsets)
    (h : ∀ p ∈ GoMap.keys offs, ∃ id, env.PartitionOwner env.topic p = .ok (some id)) :
    ∃ m1, committedPass env offs m = .ok m1 := by
  induction offs generalizing m with
  | nil => exact ⟨m, rfl⟩
  | cons po rest ih =>
    obtain ⟨p, o⟩ := po
    obtain ⟨id, hid⟩ := h p (by simp [GoMap.keys])
    obtain ⟨m1, hm1⟩ := ih (mergeCommitted m p o id)
      (fun q hq => h q (by simp only [GoMap.keys, List.map_cons, List.mem_cons]; exact Or.inr hq))
    exact ⟨m1, by simp [committedPass, hid, hm1]⟩

theorem setOldest_spec (m m1 : GoMap PartitionOffsets) (p v : Int)
    (h : setOldest m p v = .ok m1) :
    GoMap.keys m1 = GoMap.keys m ∧
      GoMap.lookup p m1 = (GoMap.lookup p m).map (fun e => { e with Oldest := v }) ∧
      ∀ q, q ≠ p → GoMap.lookup q m1 = GoMap.lookup q m := by
  unfold setOldest at h
  cases hu : GoMap.update p (fun e => { e with Oldest := v }) m with
  | none => simp [hu] at h
  | some m2 =>
    simp [hu] at h
    subst h
    exact ⟨GoMap.keys_update p _ m m2 hu, GoMap.lookup_update_self p _ m m2 hu,
      fun q hq => GoMap.lookup_update_ne p q _ m m2 hu hq⟩

theorem setNewest_spec (m m1 : GoMap PartitionOffsets) (p v : Int)
    (h : setNewest m p v = .ok m1) :
    GoMap.keys m1 = GoMap.keys m ∧
      GoMap.lookup p m1 = (GoMap.lookup p m).map (fun e => { e with Newest := v }) ∧
      ∀ q, q ≠ p → GoMap.lookup q m1 = GoMap.lookup q m := by
  unfold setNewest at h
  cases hu : GoMap.update p (fun e => { e with Newest := v }) m with
  | none => simp [hu] at h
  | some m2 =>
    simp [hu] at h
    subst h
    exact ⟨GoMap.keys_update p _ m m2 hu, GoMap.lookup_update_self p _ m m2 hu,
      fun q hq => GoMap.lookup_update_ne p q _ m m2 hu hq⟩

theorem setOldest_ok (m : GoMap PartitionOffsets) (p v : Int) (h : p ∈ GoMap.keys m) :
    ∃ m1, setOldest m p v = .ok m1 := by
  unfold setOldest
  cases hu : GoMap.update p (fun e => { e with Oldest := v }) m with
  | none => exact absurd h ((GoMap.update_eq_none_iff p _ m).mp hu)
  | some m2 => exact ⟨m2, rfl⟩

theorem setNewest_ok (m : GoMap PartitionOffsets) (p v : Int) (h : p ∈ GoMap.keys m) :
    ∃ m1, setNewest m p v = .ok m1 := by
  unfold setNewest
  cases hu : GoMap.update p (fun e => { e with Newest := v }) m with
  | none => exact absurd h ((GoMap.update_eq_none_iff p _ m).mp hu)
  | some m2 => exact ⟨m2, rfl⟩

theorem setOldest_error (m : GoMap PartitionOffsets) (p v : Int) (h : p ∉ GoMap.keys m) :
    setOldest m p v = .error .nilDeref := by
  unfold setOldest
  rw [(GoMap.update_eq_none_iff p _ m).mpr h]

/-- One iteration of the watermark loop, when it completes. -/
theorem watermarkStep (env : Env) (p : Int) (rest : List Int)
    (m m3 : GoMap PartitionOffsets) (h : watermarkPass env (p :: rest) m = .ok m3) :
    ∃ oldest newest m1 m2,
      env.GetOffset env.topic p OffsetOldest = .ok oldest ∧
      env.GetOffset env.topic p OffsetNewest = .ok newest ∧
      setOldest m p oldest = .ok m1 ∧ setNewest m1 p newest = .ok m2 ∧
      watermarkPass env rest m2 = .ok m3 := by
  cases h1 : env.GetOffset env.topic p OffsetOldest with
  | error e => simp [watermarkPass, h1, printErrorAndExit] at h
  | ok oldest =>
    cases h2 : setOldest m p oldest with
    | error a => simp [watermarkPass, h1, h2] at h
    | ok m1 =>
      cases h3 : env.GetOffset env.topic p OffsetNewest with
      | error e => simp [watermarkPass, h1, h2, h3, printErrorAndExit] at h
      | ok newest =>
        cases h4 : setNewest m1 p newest with
        | error a => simp [watermarkPass, h1, h2, h3, h4] at h
        | ok m2 =>
          simp only [watermarkPass, h1, h2, h3, h4] at h
          exact ⟨oldest, newest, m1, m2, rfl, rfl, h2, h4, h⟩

theorem watermarkPass_keys (env : Env) (ps : List Int) (m m3 : GoMap PartitionOffsets)
    (h : watermarkPass env ps m = .ok m3) :
    GoMap.keys m3 = GoMap.keys m ∧ ∀ p ∈ ps, p ∈ GoMap.keys m := by
  induction ps generalizing m with
  | nil =>
    simp [watermarkPass] at h
    subst h
    simp
  | cons p rest ih =>
    obtain ⟨oldest, newest, m1, m2, _, _, h3, h4, h5⟩ := watermarkStep env p rest m m3 h
    have k1 := (setOldest_spec m m1 p oldest h3).1
    have k2 := (setNewest_spec m1 m2 p newest h4).1
    obtain ⟨k3, k4⟩ := ih m2 h5
    refine ⟨by rw [k3, k2, k1], ?_⟩
    intro q hq
    rcases List.mem_cons.mp hq with h6 | h6
    · subst h6
      by_contra hc
      rw [setOldest_error m q oldest hc] at h3
      cases h3
    · have := k4 q h6
      rwa [k2, k1] at this

theorem watermarkPass_lookup (env : Env) (ps : List Int) (m m3 : GoMap PartitionOffsets)
    (h : watermarkPass env ps m = .ok m3) (q : Int) (e : PartitionOffsets)
    (he : GoMap.lookup q m = some e) :
    ∃ e1, GoMap.lookup q m3 = some e1 ∧ e1.Owner = e.Owner ∧ e1.Current = e.Current ∧
      (q ∉ ps → e1 = e) ∧
      (q ∈ ps → ∀ oldest newest, env.GetOffset env.topic q OffsetOldest = .ok oldest →
        env.GetOffset env.topic q OffsetNewest = .ok newest →
        e1.Oldest = oldest ∧ e1.Newest = newest) := by
  induction ps generalizing m e with
  | nil =>
    simp [watermarkPass] at h
    subst h
    exact ⟨e, he, rfl, rfl, fun _ => rfl, fun hq => absurd hq (List.not_mem_nil q)⟩
  | cons p rest ih =>
    obtain ⟨oldest, newest, m1, m2, g1, g2, h3, h4, h5⟩ := watermarkStep env p rest m m3 h
    obtain ⟨_, a2, a3⟩ := setOldest_spec m m1 p oldest h3
    obtain ⟨_, b2, b3⟩ := setNewest_spec m1 m2 p newest h4
    by_cases hqp : q = p
    · subst hqp
      have l2 : GoMap.lookup q m2 =
          some { Owner := e.Owner, Oldest := oldest, Newest := newest, Current := e.Current } := by
        rw [b2, a2, he]
        rfl
      obtain ⟨e1, c1, c2, c3, c4, c5⟩ := ih m2 h5 _ l2
      refine ⟨e1, c1, c2, c3, fun hn => absurd (List.mem_cons_self _ _) hn, ?_⟩
      intro _ o1 n1 ho1 hn1
      by_cases hr : q ∈ rest
      · exact c5 hr o1 n1 ho1 hn1
      · rw [g1] at ho1
        rw [g2] at hn1
        cases ho1
        cases hn1
        rw [c4 hr]
        exact ⟨rfl, rfl⟩
    · have l2 : GoMap.lookup q m2 = some e := by rw [b3 q hqp, a3 q hqp, he]
      obtain ⟨e1, c1, c2, c3, c4, c5⟩ := ih m2 h5 e l2
      refine ⟨e1, c1, c2, c3, ?_, ?_⟩
      · intro hn
        exact c4 (fun hr => hn (List.mem_cons_of_mem _ hr))
      · intro hq
        rcases List.mem_cons.mp hq with h6 | h6
        · exact absurd h6 hqp
        · exact c5 h6

theorem watermarkPass_ok (env : Env) (ps : List Int) (m : GoMap PartitionOffsets)
    (h : ∀ p ∈ ps, p ∈ GoMap.keys m ∧
      (∃ oldest, env.GetOffset env.topic p OffsetOldest = .ok oldest) ∧
      (∃ newest, env.GetOffset env.topic p OffsetNewest = .ok newest)) :
    ∃ m3, watermarkPass env ps m = .ok m3 := by
  induction ps generalizing m with
  | nil => exact ⟨m, rfl⟩
  | cons p rest ih =>
    obtain ⟨hk, ⟨oldest, ho⟩, ⟨newest, hn⟩⟩ := h p (List.mem_cons_self _ _)
    obtain ⟨m1, h1⟩ := setOldest_ok m p oldest hk
    have k1 := (setOldest_spec m m1 p oldest h1).1
    obtain ⟨m2, h2⟩ := setNewest_ok m1 p newest (by rw [k1]; exact hk)
    have k2 := (setNewest_spec m1 m2 p newest h2).1
    obtain ⟨m3, h3⟩ := ih m2 (fun q hq => by
      obtain ⟨a, b, c⟩ := h q (List.mem_cons_of_mem _ hq)
      exact ⟨by rw [k2, k1]; exact a, b, c⟩)
    exact ⟨m3, by simp [watermarkPass, ho, hn, h1, h2, h3]⟩

/-! ## Facts about `checkFlags` and `main` -/

theorem checkFlags_ok_iff (z g t : String) :
    checkFlags z g t = .ok () ↔ z ≠ "" ∧ g ≠ "" ∧ t ≠ "" := by
  by_cases hz : z = "" <;> by_cases hg : g = "" <;> by_cases ht : t = "" <;>
    simp [checkFlags, printUsageErrorAndExit, hz, hg, ht]

theorem checkFlags_exit_iff (z g t : String) :
    (∃ msg, checkFlags z g t = .error (.exit 64 msg)) ↔ (z = "" ∨ g = "" ∨ t = "") := by
  by_cases hz : z = "" <;> by_cases hg : g = "" <;> by_cases ht : t = "" <;>
    simp [checkFlags, printUsageErrorAndExit, hz, hg, ht]

theorem orExit_eq_ok_iff {α : Type} (r : Except String α) (code : Nat) (format : String)
    (a : α) : orExit r code format = .ok a ↔ r = .ok a := by
  cases r with
  | error e => simp [orExit, printErrorAndExit]
  | ok b => simp [orExit]

/-- A run prints exactly when the flag check passes, every call made on the way
succeeds and both passes complete. -/
theorem main_eq_ok_iff (env : Env) (t : Table) :
    main env = .ok t ↔
      (env.zookeeper ≠ "" ∧ env.group ≠ "" ∧ env.topic ≠ "") ∧
      env.NewKazooFromConnectionString = .ok () ∧
      env.Consumergroups = .ok () ∧
      ∃ offsets, env.FetchAllOffsets = .ok offsets ∧
      ∃ m1, committedPass env (offsets env.topic) [] = .ok m1 ∧
      env.BrokerList = .ok () ∧
      env.NewClient = .ok () ∧
      ∃ ps, env.Partitions env.topic = .ok ps ∧
      ∃ m2, watermarkPass env ps m1 = .ok m2 ∧
      ConsumerOffsets.Print { Group := env.group, Topic := env.topic, Partitions := m2 } = .ok t := by
  unfold main
  cases hc : checkFlags env.zookeeper env.group env.topic with
  | error a =>
    have : ¬ (env.zookeeper ≠ "" ∧ env.group ≠ "" ∧ env.topic ≠ "") := by
      rw [← checkFlags_ok_iff, hc]
      simp
    simp [bind, Except.bind, this]
  | ok u =>
    have hf : env.zookeeper ≠ "" ∧ env.group ≠ "" ∧ env.topic ≠ "" :=
      (checkFlags_ok_iff _ _ _).mp hc
    cases h1 : env.NewKazooFromConnectionString with
    | error e => simp [bind, Except.bind, orExit, printErrorAndExit]
    | ok u1 =>
      cases h2 : env.Consumergroups with
      | error e => simp [bind, Except.bind, orExit, printErrorAndExit]
      | ok u2 =>
        cases h3 : env.FetchAllOffsets with
        | error e => simp [bind, Except.bind, orExit, printErrorAndExit]
        | ok offsets =>
          cases h4 : committedPass env (offsets env.topic) [] with
          | error a => simp [bind, Except.bind, orExit, h4]
          | ok m1 =>
            cases h5 : env.BrokerList with
            | error e => simp [bind, Except.bind, orExit, printErrorAndExit, h4]
            | ok u5 =>
              cases h6 : env.NewClient with
              | error e => simp [bind, Except.bind, orExit, printErrorAndExit, h4]
              | ok u6 =>
                cases h7 : env.Partitions env.topic with
                | error e => simp [bind, Except.bind, orExit, printErrorAndExit, h4]
                | ok ps =>
                  cases h8 : watermarkPass env ps m1 with
                  | error a => simp [bind, Except.bind, orExit, h4, h8]
                  | ok m2 => simp [bind, Except.bind, orExit, h4, h8, hf]

theorem Print_row_of_lookup (co : ConsumerOffsets) (t : Table) (h : co.Print = .ok t)
    (p : Int) (e : PartitionOffsets) (he : GoMap.lookup p co.Partitions = some e) :
    formatRow co p e ∈ t.rows ∧ ∀ r ∈ t.rows, r.partition = p → r = formatRow co p e := by
  obtain ⟨_, h2, h3⟩ := Print_spec co t h
  have hr : ∀ r ∈ t.rows, r.partition = p → r = formatRow co p e := by
    intro r hr hp
    obtain ⟨e1, g1, g2⟩ := h3 r hr
    rw [hp, he] at g1
    cases g1
    rw [g2, hp]
  refine ⟨?_, hr⟩
  have hk : p ∈ GoMap.keys co.Partitions := (GoMap.lookup_isSome_iff p _).mp ⟨e, he⟩
  have hm : p ∈ t.rows.map (fun r => r.partition) := by
    rw [h2]
    exact (mem_Sort p _).mpr hk
  obtain ⟨r, hr1, hr2⟩ := List.mem_map.mp hm
  have := hr r hr1 hr2
  rwa [this] at hr1

theorem perm_pair {α : Type} (a b : α) (l : List α) (h : l.Perm [a, b]) :
    l = [a, b] ∨ l = [b, a] := by
  have hl : l.length = 2 := by simpa using h.length_eq
  obtain ⟨x, y, rfl⟩ := List.length_eq_two.mp hl
  have hx : x ∈ [a, b] := h.mem_iff.mp (List.mem_cons_self _ _)
  rcases List.mem_cons.mp hx with h1 | h1
  · subst h1
    have h2 : [y].Perm [b] := (List.perm_cons x).mp h
    have h3 : y ∈ [b] := h2.mem_iff.mp (List.mem_cons_self _ _)
    left
    simp at h3
    rw [h3]
  · have h1b : x = b := by simpa using h1
    subst h1b
    have h2 : [x, y].Perm [x, a] := h.trans (List.Perm.swap x a [])
    have h3 : [y].Perm [a] := (List.perm_cons x).mp h2
    have h4 : y ∈ [a] := h3.mem_iff.mp (List.mem_cons_self _ _)
    right
    simp at h4
    rw [h4]

/-! ## The claims -/

/-- C1: for a partition of the snapshot whose three offsets are non-negative
`int64` values, `Print` succeeds and emits a row for the partition; every row it
emits for the partition shows the committed offset, the exact difference
newest minus oldest as log size and the exact difference newest minus committed
as lag, and that lag is strictly negative when the committed offset is ahead of
the newest offset. -/
theorem C1_print_row_values (co : ConsumerOffsets) (p : Int) (e : PartitionOffsets)
    (he : GoMap.lookup p co.Partitions = some e)
    (hO : 0 ≤ e.Oldest ∧ e.Oldest < 2 ^ 63) (hN : 0 ≤ e.Newest ∧ e.Newest < 2 ^ 63)
    (hC : 0 ≤ e.Current ∧ e.Current < 2 ^ 63) :
    ∃ t, co.Print = .ok t ∧ (∃ r ∈ t.rows, r.partition = p) ∧
      ∀ r ∈ t.rows, r.partition = p →
        r.offset = e.Current ∧ r.logSize = e.Newest - e.Oldest ∧
        r.lag = e.Newest - e.Current ∧ (e.Current > e.Newest → r.lag < 0) := by
  obtain ⟨t, ht⟩ := Print_ok co
  obtain ⟨h1, h2⟩ := Print_row_of_lookup co t ht p e he
  refine ⟨t, ht, ⟨formatRow co p e, h1, rfl⟩, ?_⟩
  intro r hr hp
  rw [h2 r hr hp]
  have hs : subInt64 e.Newest e.Oldest = e.Newest - e.Oldest := subInt64_of_nonneg _ _ hN hO
  have hl : subInt64 e.Newest e.Current = e.Newest - e.Current := subInt64_of_nonneg _ _ hN hC
  refine ⟨rfl, hs, hl, ?_⟩
  intro hgt
  show subInt64 e.Newest e.Current < 0
  rw [hl]
  omega

/-- Witness of C1 on a snapshot whose committed offset 200 is ahead of the newest
offset 150: the printed lag is the negative difference. -/
theorem C1_print_row_values_witness :
    GoMap.lookup 0 staleSnapshot.Partitions =
        some { Owner := "c1", Oldest := 50, Newest := 150, Current := 200 } ∧
      ∃ t, staleSnapshot.Print = .ok t ∧ (∃ r ∈ t.rows, r.partition = 0) ∧
        ∀ r ∈ t.rows, r.partition = 0 →
          r.offset = 200 ∧ r.logSize = 150 - 50 ∧ r.lag = 150 - 200 ∧
          ((200 : Int) > 150 → r.lag < 0) :=
  ⟨rfl, C1_print_row_values staleSnapshot 0
    { Owner := "c1", Oldest := 50, Newest := 150, Current := 200 } rfl
    (by decide) (by decide) (by decide)⟩

/-- C4: for a snapshot (a Go map, so its keys are distinct) `Print` emits the
header and then exactly one row per key of `co.Partitions`, in strictly
ascending order of partition number; the table is the same for every order in
which the map may be visited, the order at hand included, so printing the
unchanged snapshot again gives the identical table. -/
theorem C4_print_sorted_one_row_per_key (co : ConsumerOffsets)
    (h : (GoMap.keys co.Partitions).Nodup) :
    ∃ t, co.Print = .ok t ∧ t.header = headerCells ∧
      (t.rows.map (fun r => r.partition)).Sorted (· < ·) ∧
      (t.rows.map (fun r => r.partition)).Perm (GoMap.keys co.Partitions) ∧
      ∀ m2 : GoMap PartitionOffsets, m2.Perm co.Partitions →
        ConsumerOffsets.Print { Group := co.Group, Topic := co.Topic, Partitions := m2 } =
          .ok t := by
  obtain ⟨t, ht⟩ := Print_ok co
  obtain ⟨h1, h2, _⟩ := Print_spec co t ht
  refine ⟨t, ht, h1, ?_, ?_, ?_⟩
  · rw [h2]
    exact strict_Sort _ h
  · rw [h2]
    exact perm_Sort _
  · intro m2 hp
    rw [← ht]
    exact (Print_perm co.Group co.Topic co.Partitions m2 hp.symm h).symm

/-- Witness of C4 on a snapshot of the partitions 1 and 0, visited in that order. -/
theorem C4_print_sorted_one_row_per_key_witness :
    (GoMap.keys twoPartitions.Partitions).Nodup ∧
      ∃ t, twoPartitions.Print = .ok t ∧ t.header = headerCells ∧
        (t.rows.map (fun r => r.partition)).Sorted (· < ·) ∧
        (t.rows.map (fun r => r.partition)).Perm (GoMap.keys twoPartitions.Partitions) ∧
        ∀ m2 : GoMap PartitionOffsets, m2.Perm twoPartitions.Partitions →
          ConsumerOffsets.Print
            { Group := twoPartitions.Group, Topic := twoPartitions.Topic, Partitions := m2 } =
            .ok t :=
  ⟨by decide, C4_print_sorted_one_row_per_key twoPartitions (by decide)⟩

/-- C5: `checkFlags` ends the process through the usage error with exit code 64
exactly when at least one of the zookeeper string, the group id and the topic
name is empty, and returns normally exactly when all three are non-empty. -/
theorem C5_checkFlags_exit_64_iff_missing (zookeeper group topic : String) :
    ((∃ msg, checkFlags zookeeper group topic = printUsageErrorAndExit msg) ↔
        (zookeeper = "" ∨ group = "" ∨ topic = "")) ∧
      ((∃ msg, checkFlags zookeeper group topic = .error (.exit 64 msg)) ↔
        (zookeeper = "" ∨ group = "" ∨ topic = "")) ∧
      (checkFlags zookeeper group topic = .ok () ↔
        (zookeeper ≠ "" ∧ group ≠ "" ∧ topic ≠ "")) :=
  ⟨checkFlags_exit_iff zookeeper group topic, checkFlags_exit_iff zookeeper group topic,
    checkFlags_ok_iff zookeeper group topic⟩

/-- C7: the upsert `co.Partitions[p] = &PartitionOffsets{Owner, Current}` is
idempotent: merging the same partition, committed offset and owner twice gives
the same snapshot, record by record, as merging it once, and a
coordination-store pass that meets the same update twice in a row ends as the
pass that meets it once. -/
theorem C7_mergeCommitted_idempotent (m : GoMap PartitionOffsets) (p o : Int)
    (owner : String) :
    mergeCommitted (mergeCommitted m p o owner) p o owner = mergeCommitted m p o owner ∧
      (∀ q, GoMap.lookup q (mergeCommitted (mergeCommitted m p o owner) p o owner) =
        GoMap.lookup q (mergeCommitted m p o owner)) ∧
      ∀ (env : Env) (rest : List (Int × Int)),
        committedPass env ((p, o) :: (p, o) :: rest) m =
          committedPass env ((p, o) :: rest) m := by
  have h : mergeCommitted (mergeCommitted m p o owner) p o owner = mergeCommitted m p o owner :=
    GoMap.store_store_self p _ m
  refine ⟨h, fun q => by rw [h], ?_⟩
  intro env rest
  cases ho : env.PartitionOwner env.topic p with
  | error e => simp [committedPass, ho]
  | ok w =>
    cases w with
    | none => simp [committedPass, ho]
    | some id =>
      simp only [committedPass, ho]
      rw [show mergeCommitted (mergeCommitted m p o id) p o id = mergeCommitted m p o id from
        GoMap.store_store_self p _ m]

/-- C9 (Scenario D): when the committed-offset map for the topic is empty and
the broker lists no partition, both passes of the merge complete without error
on the empty snapshot, and, the flag check passing and every call into the
clients succeeding, the run prints the header and no partition row. -/
theorem C9_empty_inputs_print_header_only (env : Env) (offsets : String → GoMap Int)
    (hz : env.zookeeper ≠ "") (hg : env.group ≠ "") (ht : env.topic ≠ "")
    (h1 : env.NewKazooFromConnectionString = .ok ()) (h2 : env.Consumergroups = .ok ())
    (h3 : env.FetchAllOffsets = .ok offsets) (he : offsets env.topic = [])
    (h5 : env.BrokerList = .ok ()) (h6 : env.NewClient = .ok ())
    (h7 : env.Partitions env.topic = .ok []) :
    committedPass env (offsets env.topic) [] = .ok [] ∧
      watermarkPass env [] [] = .ok [] ∧
      ConsumerOffsets.Print { Group := env.group, Topic := env.topic, Partitions := [] } =
        .ok { header := headerCells, rows := [] } ∧
      main env = .ok { header := headerCells, rows := [] } := by
  have hc : committedPass env (offsets env.topic) [] = .ok [] := by
    rw [he]
    rfl
  refine ⟨hc, rfl, rfl, ?_⟩
  rw [main_eq_ok_iff]
  exact ⟨⟨hz, hg, ht⟩, h1, h2, offsets, h3, [], hc, h5, h6, [], h7, [], rfl, rfl⟩

/-- Witness of C9 on Scenario D. -/
theorem C9_empty_inputs_print_header_only_witness :
    scenarioD.zookeeper ≠ "" ∧ scenarioD.group ≠ "" ∧ scenarioD.topic ≠ "" ∧
      offsetsOf [] scenarioD.topic = [] ∧
      scenarioD.Partitions scenarioD.topic = .ok [] ∧
      (committedPass scenarioD (offsetsOf [] scenarioD.topic) [] = .ok [] ∧
        watermarkPass scenarioD [] [] = .ok [] ∧
        ConsumerOffsets.Print
            { Group := scenarioD.group, Topic := scenarioD.topic, Partitions := [] } =
          .ok { header := headerCells, rows := [] } ∧
        main scenarioD = .ok { header := headerCells, rows := [] }) :=
  ⟨by decide, by decide, by decide, rfl, rfl,
    C9_empty_inputs_print_header_only scenarioD (offsetsOf [])
      (by decide) (by decide) (by decide) rfl rfl rfl rfl rfl rfl rfl⟩

/-- C3: in a run of `main` that reaches `co.Print()`, the partition numbers of
the printed rows are free of duplicates and are exactly the partitions of the
committed-offset map for the topic together with the partitions of the broker
list; every broker partition has exactly one row. -/
theorem C3_rows_enumerate_union (env : Env) (t : Table) (offsets : String → GoMap Int)
    (ps : List Int) (h : main env = .ok t) (ho : env.FetchAllOffsets = .ok offsets)
    (hp : env.Partitions env.topic = .ok ps) :
    (t.rows.map (fun r => r.partition)).Nodup ∧
      (∀ p, p ∈ t.rows.map (fun r => r.partition) ↔
        p ∈ GoMap.keys (offsets env.topic) ∨ p ∈ ps) ∧
      ∀ p ∈ ps, (t.rows.filter (fun r => r.partition = p)).length = 1 := by
  obtain ⟨_, _, _, offsets1, g3, m1, g4, _, _, ps1, g7, m2, g8, g9⟩ :=
    (main_eq_ok_iff env t).mp h
  rw [ho] at g3
  cases g3
  rw [hp] at g7
  cases g7
  obtain ⟨k1, k2⟩ := committedPass_keys env _ [] m1 g4
  obtain ⟨k3, k4⟩ := watermarkPass_keys env ps m1 m2 g8
  obtain ⟨_, r2, _⟩ := Print_spec _ t g9
  have hnd : (GoMap.keys m2).Nodup := by
    rw [k3]
    exact k2 (by simp [GoMap.keys])
  have hrows : (t.rows.map (fun r => r.partition)).Nodup := by
    rw [r2]
    exact (perm_Sort _).nodup_iff.mpr hnd
  have hmem : ∀ p, p ∈ t.rows.map (fun r => r.partition) ↔
      p ∈ GoMap.keys (offsets env.topic) ∨ p ∈ ps := by
    intro p
    rw [r2, mem_Sort]
    show p ∈ GoMap.keys m2 ↔ _
    rw [k3, k1 p]
    constructor
    · rintro (h1 | h1)
      · simp [GoMap.keys] at h1
      · exact Or.inl h1
    · rintro (h1 | h1)
      · exact Or.inr h1
      · exact (k1 p).mp (k4 p h1)
  refine ⟨hrows, hmem, ?_⟩
  intro p hpp
  have hc : (t.rows.map (fun r => r.partition)).count p = 1 :=
    List.count_eq_one_of_mem hrows ((hmem p).mpr (Or.inr hpp))
  rw [List.count, List.countP_map, List.countP_eq_length_filter] at hc
  rw [← hc]
  congr 1

/-- Witness of C3 on Scenario A. -/
theorem C3_rows_enumerate_union_witness :
    main scenarioA =
        .ok { header := headerCells,
              rows := [{ group := "g1", topic := "t1", partition := 0, offset := 100,
                         logSize := 100, lag := 50, owner := "c1" },
                       { group := "g1", topic := "t1", partition := 1, offset := 200,
                         logSize := 100, lag := 50, owner := "c2" }] } ∧
      scenarioA.Partitions scenarioA.topic = .ok [0, 1] ∧
      (([0, 1] : List Int).Nodup ∧
        (∀ p, p ∈ ([0, 1] : List Int) ↔
          p ∈ GoMap.keys ([(0, 100), (1, 200)] : GoMap Int) ∨ p ∈ ([0, 1] : List Int)) ∧
        ∀ p ∈ ([0, 1] : List Int),
          (([{ group := "g1", topic := "t1", partition := 0, offset := 100,
               logSize := 100, lag := 50, owner := "c1" },
             { group := "g1", topic := "t1", partition := 1, offset := 200,
               logSize := 100, lag := 50, owner := "c2" }] : List Row).filter
            (fun r => r.partition = p)).length = 1) :=
  ⟨rfl, rfl,
    C3_rows_enumerate_union scenarioA _
      (offsetsOf [(0, 100), (1, 200)]) [0, 1] rfl rfl rfl⟩

/-- C6, as stated, fails: on Scenario A the run does not print the rows
(0,100,100,50,c1) and (1,200,100,100,c2); the lag of partition 1 is not 100. -/
theorem C6_counterexample :
    main scenarioA ≠
      .ok { header := headerCells,
            rows := [{ group := "g1", topic := "t1", partition := 0, offset := 100,
                       logSize := 100, lag := 50, owner := "c1" },
                     { group := "g1", topic := "t1", partition := 1, offset := 200,
                       logSize := 100, lag := 100, owner := "c2" }] } := by
  intro h
  have h1 : main scenarioA =
      .ok { header := headerCells,
            rows := [{ group := "g1", topic := "t1", partition := 0, offset := 100,
                       logSize := 100, lag := 50, owner := "c1" },
                     { group := "g1", topic := "t1", partition := 1, offset := 200,
                       logSize := 100, lag := 50, owner := "c2" }] } := rfl
  rw [h1] at h
  simp at h

/-- C6, amended (Scenario A): for group g1, topic t1, committed offsets
0:100 and 1:200 visited in either order, owners 0:c1 and 1:c2, and a broker
listing the partitions 0 and 1 in either order with watermarks 0:(50, 150) and
1:(150, 250), the run prints exactly two rows, (0,100,100,50,c1) followed by
(1,200,100,50,c2): the lag of partition 1 is 250 - 200 = 50. -/
theorem C6_scenario_A_rows (offsets : GoMap Int) (ps : List Int)
    (ho : offsets.Perm [(0, 100), (1, 200)]) (hp : ps.Perm [0, 1]) :
    main (scenarioAWith offsets ps) =
      .ok { header := headerCells,
            rows := [{ group := "g1", topic := "t1", partition := 0, offset := 100,
                       logSize := 100, lag := 50, owner := "c1" },
                     { group := "g1", topic := "t1", partition := 1, offset := 200,
                       logSize := 100, lag := 50, owner := "c2" }] } := by
  rcases perm_pair _ _ offsets ho with h1 | h1 <;> rcases perm_pair _ _ ps hp with h2 | h2 <;>
    subst h1 <;> subst h2 <;> rfl

/-- Witness of the amended C6 on Scenario A itself. -/
theorem C6_scenario_A_rows_witness :
    main scenarioA =
      .ok { header := headerCells,
            rows := [{ group := "g1", topic := "t1", partition := 0, offset := 100,
                       logSize := 100, lag := 50, owner := "c1" },
                     { group := "g1", topic := "t1", partition := 1, offset := 200,
                       logSize := 100, lag := 50, owner := "c2" }] } :=
  C6_scenario_A_rows [(0, 100), (1, 200)] [0, 1] (List.Perm.refl _) (List.Perm.refl _)

/-- C2, as stated, fails: on Scenario B the broker lists partition 0, which the
committed-offset map lacks, and the run ends in the nil-pointer panic of the Go
runtime, not in an error the program signals through an exit. -/
theorem C2_counterexample :
    scenarioB.Partitions scenarioB.topic = .ok [0] ∧
      (∃ offsets, scenarioB.FetchAllOffsets = .ok offsets ∧
        (0 : Int) ∉ GoMap.keys (offsets scenarioB.topic)) ∧
      main scenarioB = .error .nilDeref ∧
      ¬ ∃ code format, main scenarioB = .error (.exit code format) := by
  have h : main scenarioB = .error .nilDeref := rfl
  refine ⟨rfl, ⟨_, rfl, by decide⟩, h, ?_⟩
  rintro ⟨code, format, hc⟩
  rw [h] at hc
  cases hc

/-- C2, amended: when the broker list for the topic contains a partition that
the committed-offset map for the topic lacks, the run never reaches
`co.Print()`: it ends early, no report is printed and so no row is emitted for
that partition. -/
theorem C2_mismatch_never_prints (env : Env) (offsets : String → GoMap Int)
    (ps : List Int) (p : Int) (ho : env.FetchAllOffsets = .ok offsets)
    (hp : env.Partitions env.topic = .ok ps) (hmem : p ∈ ps)
    (habs : p ∉ GoMap.keys (offsets env.topic)) :
    (∀ t, main env ≠ .ok t) ∧ ∃ a, main env = .error a := by
  have hno : ∀ t, main env ≠ .ok t := by
    intro t h
    obtain ⟨_, _, _, offsets1, g3, m1, g4, _, _, ps1, g7, m2, g8, _⟩ :=
      (main_eq_ok_iff env t).mp h
    rw [ho] at g3
    cases g3
    rw [hp] at g7
    cases g7
    have k1 := (committedPass_keys env _ [] m1 g4).1 p
    have k4 := (watermarkPass_keys env ps m1 m2 g8).2 p hmem
    rcases k1.mp k4 with h1 | h1
    · simp [GoMap.keys] at h1
    · exact habs h1
  refine ⟨hno, ?_⟩
  cases hm : main env with
  | error a => exact ⟨a, rfl⟩
  | ok t => exact absurd hm (hno t)

/-- Witness of the amended C2 on Scenario B. -/
theorem C2_mismatch_never_prints_witness :
    scenarioB.Partitions scenarioB.topic = .ok [0] ∧
      (∀ t, main scenarioB ≠ .ok t) ∧ ∃ a, main scenarioB = .error a :=
  ⟨rfl, C2_mismatch_never_prints scenarioB (offsetsOf []) [0] 0
    rfl rfl (by decide) (by decide)⟩

/-- C8, as stated, fails: on Scenario C the broker reports oldest 10 and newest 3
for partition 0, and the run ends in no error: it stores both values and prints
the row of partition 0 with log size 3 - 10 = -7. -/
theorem C8_counterexample :
    scenarioC.GetOffset scenarioC.topic 0 OffsetOldest = .ok 10 ∧
      scenarioC.GetOffset scenarioC.topic 0 OffsetNewest = .ok 3 ∧
      main scenarioC =
        .ok { header := headerCells,
              rows := [{ group := "g1", topic := "t1", partition := 0, offset := 5,
                         logSize := -7, lag := -2, owner := "c1" }] } ∧
      ∀ a, main scenarioC ≠ .error a := by
  have h : main scenarioC =
      .ok { header := headerCells,
            rows := [{ group := "g1", topic := "t1", partition := 0, offset := 5,
                       logSize := -7, lag := -2, owner := "c1" }] } := rfl
  refine ⟨rfl, rfl, h, ?_⟩
  intro a ha
  rw [h] at ha
  cases ha

/-- C8, amended: the watermark merge does not check oldest against newest.  When
the flag check passes, every call into the clients succeeds, every partition of
the committed-offset map (a Go map, so with distinct keys) has an owner that is
not nil, and every broker partition has a committed offset, both passes
complete and the run reaches `Print`.  For every broker partition whose
watermarks satisfy oldest > newest, the record of the partition then holds
exactly the oldest and newest values the broker supplied, next to the owner and
committed offset of the coordination store, and the one row printed for the
partition shows that committed offset and owner, the `int64` difference
newest - oldest as log size and the `int64` difference newest - committed as
lag; the log size is the exact, strictly negative difference when both
watermarks are non-negative `int64` values. -/
theorem C8_inverted_watermarks_are_printed (env : Env) (offsets : String → GoMap Int)
    (ps : List Int)
    (hz : env.zookeeper ≠ "") (hg : env.group ≠ "") (ht : env.topic ≠ "")
    (h1 : env.NewKazooFromConnectionString = .ok ()) (h2 : env.Consumergroups = .ok ())
    (h3 : env.FetchAllOffsets = .ok offsets)
    (hn : (GoMap.keys (offsets env.topic)).Nodup)
    (hown : ∀ p ∈ GoMap.keys (offsets env.topic),
      ∃ id, env.PartitionOwner env.topic p = .ok (some id))
    (h5 : env.BrokerList = .ok ()) (h6 : env.NewClient = .ok ())
    (h7 : env.Partitions env.topic = .ok ps)
    (hsub : ∀ p ∈ ps, p ∈ GoMap.keys (offsets env.topic))
    (hget : ∀ p ∈ ps, (∃ oldest, env.GetOffset env.topic p OffsetOldest = .ok oldest) ∧
      ∃ newest, env.GetOffset env.topic p OffsetNewest = .ok newest) :
    ∃ t m1 m2, committedPass env (offsets env.topic) [] = .ok m1 ∧
      watermarkPass env ps m1 = .ok m2 ∧ main env = .ok t ∧
      ∀ p ∈ ps, ∀ oldest newest, env.GetOffset env.topic p OffsetOldest = .ok oldest →
        env.GetOffset env.topic p OffsetNewest = .ok newest → oldest > newest →
        ∃ o id, (p, o) ∈ offsets env.topic ∧
          env.PartitionOwner env.topic p = .ok (some id) ∧
          GoMap.lookup p m2 =
            some { Owner := id, Oldest := oldest, Newest := newest, Current := o } ∧
          ({ group := env.group, topic := env.topic, partition := p, offset := o,
             logSize := subInt64 newest oldest, lag := subInt64 newest o,
             owner := id } : Row) ∈ t.rows ∧
          (∀ r ∈ t.rows, r.partition = p →
            r = { group := env.group, topic := env.topic, partition := p, offset := o,
                  logSize := subInt64 newest oldest, lag := subInt64 newest o,
                  owner := id }) ∧
          (0 ≤ newest → oldest < 2 ^ 63 →
            subInt64 newest oldest = newest - oldest ∧ subInt64 newest oldest < 0) := by
  obtain ⟨m1, g4⟩ := committedPass_ok env (offsets env.topic) [] hown
  obtain ⟨k1, _⟩ := committedPass_keys env _ [] m1 g4
  have hsub1 : ∀ p ∈ ps, p ∈ GoMap.keys m1 := fun p hp => (k1 p).mpr (Or.inr (hsub p hp))
  obtain ⟨m2, g8⟩ := watermarkPass_ok env ps m1
    (fun p hp => ⟨hsub1 p hp, (hget p hp).1, (hget p hp).2⟩)
  obtain ⟨t, g9⟩ :=
    Print_ok { Group := env.group, Topic := env.topic, Partitions := m2 }
  refine ⟨t, m1, m2, g4, g8, (main_eq_ok_iff env t).mpr
    ⟨⟨hz, hg, ht⟩, h1, h2, offsets, h3, m1, g4, h5, h6, ps, h7, m2, g8, g9⟩, ?_⟩
  intro p hp oldest newest hold hnew hgt
  obtain ⟨⟨p1, o⟩, hpo, hfst⟩ := List.mem_map.mp (hsub p hp)
  have hp1 : p1 = p := hfst
  subst hp1
  obtain ⟨id, hid, hl⟩ := committedPass_lookup env _ [] m1 g4 hn p1 o hpo
  obtain ⟨e1, c1, c2, c3, _, c5⟩ := watermarkPass_lookup env ps m1 m2 g8 p1 _ hl
  obtain ⟨d1, d2⟩ := c5 hp oldest newest hold hnew
  have he1 : e1 = { Owner := id, Oldest := oldest, Newest := newest, Current := o } := by
    cases e1
    simp only [PartitionOffsets.mk.injEq]
    exact ⟨c2, d1, d2, c3⟩
  subst he1
  obtain ⟨r1, r2⟩ := Print_row_of_lookup _ t g9 p1 _ c1
  refine ⟨o, id, hpo, hid, c1, r1, r2, ?_⟩
  intro hn0 hob
  have hx : subInt64 newest oldest = newest - oldest :=
    subInt64_of_nonneg _ _ ⟨hn0, by omega⟩ ⟨by omega, hob⟩
  rw [hx]
  exact ⟨rfl, by omega⟩

/-- Witness of the amended C8 on Scenario C. -/
theorem C8_inverted_watermarks_are_printed_witness :
    scenarioC.Partitions scenarioC.topic = .ok [0] ∧
      (GoMap.keys (offsetsOf [(0, 5)] scenarioC.topic)).Nodup ∧
      scenarioC.PartitionOwner scenarioC.topic 0 = .ok (some "c1") ∧
      scenarioC.GetOffset scenarioC.topic 0 OffsetOldest = .ok 10 ∧
      scenarioC.GetOffset scenarioC.topic 0 OffsetNewest = .ok 3 ∧
      ∃ t m1 m2, committedPass scenarioC (offsetsOf [(0, 5)] scenarioC.topic) [] = .ok m1 ∧
        watermarkPass scenarioC [0] m1 = .ok m2 ∧ main scenarioC = .ok t ∧
        ∀ p ∈ ([0] : List Int), ∀ oldest newest,
          scenarioC.GetOffset scenarioC.topic p OffsetOldest = .ok oldest →
          scenarioC.GetOffset scenarioC.topic p OffsetNewest = .ok newest → oldest > newest →
          ∃ o id, (p, o) ∈ offsetsOf [(0, 5)] scenarioC.topic ∧
            scenarioC.PartitionOwner scenarioC.topic p = .ok (some id) ∧
            GoMap.lookup p m2 =
              some { Owner := id, Oldest := oldest, Newest := newest, Current := o } ∧
            ({ group := scenarioC.group, topic := scenarioC.topic, partition := p,
               offset := o, logSize := subInt64 newest oldest, lag := subInt64 newest o,
               owner := id } : Row) ∈ t.rows ∧
            (∀ r ∈ t.rows, r.partition = p →
              r = { group := scenarioC.group, topic := scenarioC.topic, partition := p,
                    offset := o, logSize := subInt64 newest oldest,
                    lag := subInt64 newest o, owner := id }) ∧
            (0 ≤ newest → oldest < 2 ^ 63 →
              subInt64 newest oldest = newest - oldest ∧ subInt64 newest oldest < 0) :=
  ⟨rfl, by decide, rfl, rfl, rfl,
    C8_inverted_watermarks_are_printed scenarioC (offsetsOf [(0, 5)]) [0]
      (by decide) (by decide) (by decide) rfl rfl rfl (by decide)
      (fun _ _ => ⟨"c1", rfl⟩) rfl rfl rfl
      (by decide)
      (fun _ _ => ⟨⟨10, rfl⟩, ⟨3, rfl⟩⟩)⟩

/-- C10, as stated, fails: with the committed offset -2^63 for partition 0 and a
broker that lists no partition, the run succeeds and the row of partition 0
shows offset -2^63 and lag -2^63, which is not the negation of the offset. -/
theorem C10_counterexample :
    scenarioMinOffset.Partitions scenarioMinOffset.topic = .ok [] ∧
      main scenarioMinOffset =
        .ok { header := headerCells,
              rows := [{ group := "g1", topic := "t1", partition := 0,
                         offset := -9223372036854775808, logSize := 0,
                         lag := -9223372036854775808, owner := "c1" }] } ∧
      ¬ ∀ t, main scenarioMinOffset = .ok t →
          ∀ r ∈ t.rows, r.partition = 0 → r.lag = -r.offset := by
  have h : main scenarioMinOffset =
      .ok { header := headerCells,
            rows := [{ group := "g1", topic := "t1", partition := 0,
                       offset := -9223372036854775808, logSize := 0,
                       lag := -9223372036854775808, owner := "c1" }] } := rfl
  refine ⟨rfl, h, ?_⟩
  intro hall
  have := hall _ h _ (List.mem_cons_self _ _) rfl
  simp at this

/-- C10, amended: in a successful run, a partition that the committed-offset map
(a Go map, so with distinct keys) holds and the broker list lacks still gets
its row, and only that row: offset and owner are those of the coordination
store, oldest and newest stay 0, so the log size is 0 and the lag is the `int64`
negation of the committed offset, which is the integer negation unless the
committed offset is the least `int64`, -2^63.  The watermark pass leaves owner
and committed offset of every record as the coordination-store pass set them,
so a partition of the broker list is printed with the offset and owner of the
coordination store. -/
theorem C10_frame_of_watermark_pass (env : Env) (t : Table) (offsets : String → GoMap Int)
    (ps : List Int) (h : main env = .ok t) (ho : env.FetchAllOffsets = .ok offsets)
    (hn : (GoMap.keys (offsets env.topic)).Nodup)
    (hp : env.Partitions env.topic = .ok ps) :
    (∀ p o, (p, o) ∈ offsets env.topic → p ∉ ps →
      ∃ id, env.PartitionOwner env.topic p = .ok (some id) ∧
        ({ group := env.group, topic := env.topic, partition := p, offset := o,
           logSize := 0, lag := wrapInt64 (-o), owner := id } : Row) ∈ t.rows ∧
        (∀ r ∈ t.rows, r.partition = p →
          r = { group := env.group, topic := env.topic, partition := p, offset := o,
                logSize := 0, lag := wrapInt64 (-o), owner := id }) ∧
        (isInt64 o → o ≠ -(2 ^ 63) → wrapInt64 (-o) = -o)) ∧
      (∀ m1 m2, committedPass env (offsets env.topic) [] = .ok m1 →
        watermarkPass env ps m1 = .ok m2 →
        ∀ p e, GoMap.lookup p m1 = some e →
          ∃ e1, GoMap.lookup p m2 = some e1 ∧ e1.Owner = e.Owner ∧ e1.Current = e.Current) ∧
      (∀ p o, (p, o) ∈ offsets env.topic → p ∈ ps →
        ∃ id, env.PartitionOwner env.topic p = .ok (some id) ∧
          ∃ r ∈ t.rows, r.partition = p ∧ r.offset = o ∧ r.owner = id) := by
  obtain ⟨_, _, _, offsets1, g3, m1, g4, _, _, ps1, g7, m2, g8, g9⟩ :=
    (main_eq_ok_iff env t).mp h
  rw [ho] at g3
  cases g3
  rw [hp] at g7
  cases g7
  refine ⟨?_, ?_, ?_⟩
  · intro p o hpo hnot
    obtain ⟨id, hid, hl⟩ := committedPass_lookup env _ [] m1 g4 hn p o hpo
    obtain ⟨e1, c1, _, _, c4, _⟩ := watermarkPass_lookup env ps m1 m2 g8 p _ hl
    rw [c4 hnot] at c1
    obtain ⟨d1, d2⟩ := Print_row_of_lookup _ t g9 p _ c1
    have hrow : formatRow { Group := env.group, Topic := env.topic, Partitions := m2 } p
        { Owner := id, Oldest := 0, Newest := 0, Current := o } =
        { group := env.group, topic := env.topic, partition := p, offset := o,
          logSize := 0, lag := wrapInt64 (-o), owner := id } := by
      simp [formatRow, subInt64, wrapInt64]
    rw [hrow] at d1 d2
    refine ⟨id, hid, d1, d2, ?_⟩
    intro hi hne
    unfold isInt64 at hi
    exact wrapInt64_of_isInt64 _ ⟨by omega, by omega⟩
  · intro m1a m2a ha hb p e he
    obtain ⟨e1, c1, c2, c3, _, _⟩ := watermarkPass_lookup env ps m1a m2a hb p e he
    exact ⟨e1, c1, c2, c3⟩
  · intro p o hpo _
    obtain ⟨id, hid, hl⟩ := committedPass_lookup env _ [] m1 g4 hn p o hpo
    obtain ⟨e1, c1, c2, c3, _, _⟩ := watermarkPass_lookup env ps m1 m2 g8 p _ hl
    obtain ⟨d1, _⟩ := Print_row_of_lookup _ t g9 p _ c1
    exact ⟨id, hid, _, d1, rfl, c3, c2⟩

/-- Witness of the amended C10 on Scenario A with a broker that lists partition 0
only: partition 1 is printed with log size 0 and lag -200. -/
theorem C10_frame_of_watermark_pass_witness :
    main scenarioBrokerSubset =
        .ok { header := headerCells,
              rows := [{ group := "g1", topic := "t1", partition := 0, offset := 100,
                         logSize := 100, lag := 50, owner := "c1" },
                       { group := "g1", topic := "t1", partition := 1, offset := 200,
                         logSize := 0, lag := -200, owner := "c2" }] } ∧
      (GoMap.keys (offsetsOf [(0, 100), (1, 200)] scenarioBrokerSubset.topic)).Nodup ∧
      scenarioBrokerSubset.Partitions scenarioBrokerSubset.topic = .ok [0] ∧
      (1, 200) ∈ offsetsOf [(0, 100), (1, 200)] scenarioBrokerSubset.topic ∧
      (1 : Int) ∉ ([0] : List Int) ∧
      ∃ t, main scenarioBrokerSubset = .ok t ∧
        (∀ p o, (p, o) ∈ offsetsOf [(0, 100), (1, 200)] scenarioBrokerSubset.topic →
          p ∉ ([0] : List Int) →
          ∃ id, scenarioBrokerSubset.PartitionOwner scenarioBrokerSubset.topic p =
              .ok (some id) ∧
            ({ group := scenarioBrokerSubset.group, topic := scenarioBrokerSubset.topic,
               partition := p, offset := o, logSize := 0, lag := wrapInt64 (-o),
               owner := id } : Row) ∈ t.rows ∧
            (∀ r ∈ t.rows, r.partition = p →
              r = { group := scenarioBrokerSubset.group, topic := scenarioBrokerSubset.topic,
                    partition := p, offset := o, logSize := 0, lag := wrapInt64 (-o),
                    owner := id }) ∧
            (isInt64 o → o ≠ -(2 ^ 63) → wrapInt64 (-o) = -o)) ∧
        (∀ m1 m2,
          committedPass scenarioBrokerSubset
            (offsetsOf [(0, 100), (1, 200)] scenarioBrokerSubset.topic) [] = .ok m1 →
          watermarkPass scenarioBrokerSubset [0] m1 = .ok m2 →
          ∀ p e, GoMap.lookup p m1 = some e →
            ∃ e1, GoMap.lookup p m2 = some e1 ∧ e1.Owner = e.Owner ∧
              e1.Current = e.Current) ∧
        (∀ p o, (p, o) ∈ offsetsOf [(0, 100), (1, 200)] scenarioBrokerSubset.topic →
          p ∈ ([0] : List Int) →
          ∃ id, scenarioBrokerSubset.PartitionOwner scenarioBrokerSubset.topic p =
              .ok (some id) ∧
            ∃ r ∈ t.rows, r.partition = p ∧ r.offset = o ∧ r.owner = id) :=
  ⟨rfl, by decide, rfl, by decide, by decide, _, rfl,
    C10_frame_of_watermark_pass scenarioBrokerSubset _ (offsetsOf [(0, 100), (1, 200)]) [0]
      rfl rfl (by decide) rfl⟩

end KazooOffsets
